import Mathlib

/-!
Verification development for the DiT diffusion policy
(`lerobot/common/policies/dit/modeling_dit.py`).

The tensor computations of the source are shallowly embedded over an
arbitrary field: a rank-1 tensor is a `List α` (`Vec`), a rank-2 tensor a
`List (Vec α)` (`Mat`, outer axis first), a rank-3 tensor a `List (Mat α)`
(`Cube`).  PyTorch elementwise operations become `List.zipWith`-style
operations.  Library neural modules that the source merely calls
(multi-head attention, layer norm, SiLU / GELU activations, the diffusers
schedulers) are passed in as function parameters: every theorem below holds
for an arbitrary choice of those functions, which is strictly stronger than
fixing their numeric behaviour.  Dropout modules are modelled in eval mode,
where they are the identity.  Randomly initialised weights (PyTorch default
initialisation, `xavier_uniform_` draws) are modelled as arbitrary
parameters.
-/

set_option linter.unusedSectionVars false

namespace DiTSpec

abbrev Vec (α : Type) := List α
abbrev Mat (α : Type) := List (Vec α)
abbrev Cube (α : Type) := List (Mat α)

variable {α : Type} [Field α]

/-- Elementwise sum of two rank-1 tensors (`torch +`). -/
def vecAdd (u v : Vec α) : Vec α := List.zipWith (· + ·) u v

/-- Elementwise (Hadamard) product of two rank-1 tensors (`torch *`). -/
def vecMul (u v : Vec α) : Vec α := List.zipWith (· * ·) u v

/-- Scalar multiple of a rank-1 tensor. -/
def vecScale (c : α) (v : Vec α) : Vec α := v.map (c * ·)

/-- The all-zero rank-1 tensor of length `n`. -/
def zeroVec (n : ℕ) : Vec α := List.replicate n 0

/-- Dot product of two rank-1 tensors. -/
def dot (u v : Vec α) : α := (vecMul u v).sum

/-- Rowwise sum of two rank-2 tensors. -/
def matAdd (M N : Mat α) : Mat α := List.zipWith vecAdd M N

/-- Scalar multiple of a rank-2 tensor. -/
def matScale (c : α) (M : Mat α) : Mat α := M.map (vecScale c)

/-- The all-zero rank-2 tensor with `m` rows of length `n`. -/
def zeroMat (m n : ℕ) : Mat α := List.replicate m (zeroVec n)

/-- Elementwise sum of two rank-3 tensors. -/
def cubeAdd (X Y : Cube α) : Cube α := List.zipWith matAdd X Y

/-- The all-zero rank-3 tensor of shape `(a, b, c)`. -/
def zeroCube (a b c : ℕ) : Cube α := List.replicate a (zeroMat b c)

/-- Map a function over every innermost vector of a rank-3 tensor (the way an
elementwise `nn.Linear` / `LayerNorm` acts on a `(T, B, D)` tensor). -/
def cubeMapVec (f : Vec α → Vec α) (X : Cube α) : Cube α :=
  X.map (fun M => M.map f)

/-- `torch.mean(M, axis=0)` for a rank-2 tensor: mean of the rows. -/
def matMean0 (M : Mat α) : Vec α :=
  match M with
  | [] => []
  | r :: rs => vecScale ((rs.length + 1 : α))⁻¹ (rs.foldl vecAdd r)

/-- `torch.mean(X, axis=0)` for a rank-3 tensor: mean of the outer slices. -/
def cubeMean0 (X : Cube α) : Mat α :=
  match X with
  | [] => []
  | M :: Ms => matScale ((Ms.length + 1 : α))⁻¹ (Ms.foldl matAdd M)

/-- Broadcast addition of a rank-1 tensor onto every row of a rank-2 tensor
(`v + M` with numpy-style broadcasting over the leading axis). -/
def broadcastAddVec (v : Vec α) (M : Mat α) : Mat α := M.map (vecAdd v)

/-- A `torch.nn.Linear` layer: weight rows are dotted with the input and the
bias is added. -/
structure LinearP (α : Type) where
  weight : Mat α
  bias : Vec α

/-- Application of a `nn.Linear` layer to a rank-1 tensor. -/
def LinearP.apply (p : LinearP α) (v : Vec α) : Vec α :=
  vecAdd (p.weight.map (fun r => dot r v)) p.bias

/-- Shape predicate: a rank-2 tensor with `m` rows of length `n`. -/
def MatWF (M : Mat α) (m n : ℕ) : Prop :=
  M.length = m ∧ ∀ r ∈ M, r.length = n

/-- Shape predicate: a rank-3 tensor of shape `(a, b, c)`. -/
def CubeWF (X : Cube α) (a b c : ℕ) : Prop :=
  X.length = a ∧ ∀ M ∈ X, MatWF M b c

/-! ### Basic lemmas about the tensor operations -/

theorem vecAdd_zero_left {v : Vec α} {n : ℕ} (h : v.length = n) :
    vecAdd (zeroVec n) v = v := by
  induction v generalizing n with
  | nil => subst h; rfl
  | cons x xs ih =>
    subst h
    simp only [vecAdd, zeroVec, List.length_cons, List.replicate, List.zipWith_cons_cons,
      zero_add, List.cons.injEq, true_and]
    exact ih rfl

theorem vecAdd_zero_right {v : Vec α} {n : ℕ} (h : v.length = n) :
    vecAdd v (zeroVec n) = v := by
  induction v generalizing n with
  | nil => subst h; rfl
  | cons x xs ih =>
    subst h
    simp only [vecAdd, zeroVec, List.length_cons, List.replicate, List.zipWith_cons_cons,
      add_zero, List.cons.injEq, true_and]
    exact ih rfl

theorem vecMul_zero_right {v : Vec α} {n : ℕ} (h : v.length = n) :
    vecMul v (zeroVec n) = zeroVec n := by
  induction v generalizing n with
  | nil => subst h; rfl
  | cons x xs ih =>
    subst h
    simp only [vecMul, zeroVec, List.length_cons, List.replicate, List.zipWith_cons_cons,
      mul_zero, List.cons.injEq, true_and]
    exact ih rfl

theorem dot_zero_left {v : Vec α} {n : ℕ} : dot (zeroVec n) v = 0 := by
  induction v generalizing n with
  | nil => simp [dot, vecMul]
  | cons x xs ih =>
    cases n with
    | zero => simp [dot, vecMul, zeroVec]
    | succ m =>
      simp only [dot, vecMul, zeroVec, List.replicate, List.zipWith_cons_cons, zero_mul,
        List.sum_cons, zero_add]
      exact @ih m

theorem map_eq_replicate_of_forall {β γ : Type} {l : List β} {f : β → γ} {c : γ}
    (h : ∀ a ∈ l, f a = c) : l.map f = List.replicate l.length c := by
  induction l with
  | nil => rfl
  | cons x xs ih =>
    simp [List.replicate, h x (by simp)]
    exact ih (fun a ha => h a (by simp [ha]))

theorem LinearP.apply_zero {m n : ℕ} (v : Vec α) :
    LinearP.apply ⟨zeroMat m n, zeroVec m⟩ v = zeroVec m := by
  have hmap : List.map (fun r => dot r v) (zeroMat m n : Mat α) = zeroVec m := by
    have h1 : ∀ r ∈ (zeroMat m n : Mat α), dot r v = 0 := by
      intro r hr
      rw [List.eq_of_mem_replicate hr]
      exact dot_zero_left
    have h2 := map_eq_replicate_of_forall h1
    simpa [zeroMat, zeroVec] using h2
  show vecAdd (List.map (fun r => dot r v) (zeroMat m n)) (zeroVec m) = zeroVec m
  rw [hmap]
  exact vecAdd_zero_left (by simp [zeroVec])

theorem LinearP.apply_length (p : LinearP α) (v : Vec α) :
    (p.apply v).length = min p.weight.length p.bias.length := by
  simp [LinearP.apply, vecAdd]

theorem matAdd_zero_left {M : Mat α} {m n : ℕ} (h : MatWF M m n) :
    matAdd (zeroMat m n) M = M := by
  obtain ⟨hlen, hrows⟩ := h
  induction M generalizing m with
  | nil => subst hlen; rfl
  | cons r rs ih =>
    subst hlen
    simp [matAdd, zeroMat, List.replicate]
    constructor
    · exact vecAdd_zero_left (hrows r (by simp))
    · have := ih rfl (fun r hr => hrows r (by simp [hr]))
      simpa [matAdd, zeroMat] using this

theorem matAdd_zero_right {M : Mat α} {m n : ℕ} (h : MatWF M m n) :
    matAdd M (zeroMat m n) = M := by
  obtain ⟨hlen, hrows⟩ := h
  induction M generalizing m with
  | nil => subst hlen; rfl
  | cons r rs ih =>
    subst hlen
    simp [matAdd, zeroMat, List.replicate]
    constructor
    · exact vecAdd_zero_right (hrows r (by simp))
    · have := ih rfl (fun r hr => hrows r (by simp [hr]))
      simpa [matAdd, zeroMat] using this

theorem cubeAdd_zero_left {X : Cube α} {a b c : ℕ} (h : CubeWF X a b c) :
    cubeAdd (zeroCube a b c) X = X := by
  obtain ⟨hlen, hmats⟩ := h
  induction X generalizing a with
  | nil => subst hlen; rfl
  | cons M Ms ih =>
    subst hlen
    simp [cubeAdd, zeroCube, List.replicate]
    constructor
    · exact matAdd_zero_left (hmats M (by simp))
    · have := ih rfl (fun M hM => hmats M (by simp [hM]))
      simpa [cubeAdd, zeroCube] using this

theorem cubeAdd_zero_right {X : Cube α} {a b c : ℕ} (h : CubeWF X a b c) :
    cubeAdd X (zeroCube a b c) = X := by
  obtain ⟨hlen, hmats⟩ := h
  induction X generalizing a with
  | nil => subst hlen; rfl
  | cons M Ms ih =>
    subst hlen
    simp [cubeAdd, zeroCube, List.replicate]
    constructor
    · exact matAdd_zero_right (hmats M (by simp))
    · have := ih rfl (fun M hM => hmats M (by simp [hM]))
      simpa [cubeAdd, zeroCube] using this

/-! ### Error-raising factories of the source

`_make_noise_scheduler`, `_make_norm`, `get_activation_fn` and the
`prediction_type` dispatch of `DiT.compute_loss` each select a supported
variant by name and raise a descriptive exception otherwise; raising is
embedded as `Except.error` carrying the message of the Python exception. -/

/-- The scheduler variants `_make_noise_scheduler` can build. -/
inductive SchedulerKind : Type
  | ddpm : SchedulerKind
  | ddim : SchedulerKind
deriving DecidableEq

/-- `_make_noise_scheduler(name, **kwargs)`: `DDPM` and `DDIM` are the only
supported names; anything else raises `ValueError`. -/
def makeNoiseScheduler (name : String) : Except String SchedulerKind :=
  if name = "DDPM" then Except.ok SchedulerKind.ddpm
  else if name = "DDIM" then Except.ok SchedulerKind.ddim
  else Except.error ("Unsupported noise scheduler type " ++ name)

/-- The normalisation-layer builders `_make_norm` can return. -/
inductive NormKind : Type
  | batchNorm : NormKind
  | groupNorm (numGroups : ℕ) : NormKind
  | diffusionPolicy : NormKind
deriving DecidableEq

/-- `_make_norm(norm_name, norm_num_groups)`: `batch_norm`, `group_norm` and
`diffusion_policy` are supported; anything else raises `NotImplementedError`. -/
def makeNorm (normName : String) (normNumGroups : ℕ) : Except String NormKind :=
  if normName = "batch_norm" then Except.ok NormKind.batchNorm
  else if normName = "group_norm" then Except.ok (NormKind.groupNorm normNumGroups)
  else if normName = "diffusion_policy" then Except.ok NormKind.diffusionPolicy
  else Except.error ("Missing norm layer: " ++ normName)

/-- The activation functions `get_activation_fn` can return. -/
inductive ActivationKind : Type
  | relu : ActivationKind
  | gelu : ActivationKind
  | glu : ActivationKind
deriving DecidableEq

/-- `get_activation_fn(activation)`: `relu`, `gelu` and `glu` are supported;
anything else raises `RuntimeError`. -/
def getActivationFn (activation : String) : Except String ActivationKind :=
  if activation = "relu" then Except.ok ActivationKind.relu
  else if activation = "gelu" then Except.ok ActivationKind.gelu
  else if activation = "glu" then Except.ok ActivationKind.glu
  else Except.error ("activation should be relu/gelu/glu, not " ++ activation ++ ".")

/-- The `prediction_type` dispatch at the end of `DiT.compute_loss`: the
target is the injected noise for `"epsilon"`, the clean action trajectory for
`"sample"`, and any other value raises `ValueError`. -/
def predictionTarget {T : Type} (predictionType : String) (eps action : T) :
    Except String T :=
  if predictionType = "epsilon" then Except.ok eps
  else if predictionType = "sample" then Except.ok action
  else Except.error ("Unsupported prediction type " ++ predictionType)

/-! ### `DiT.generate_actions` -/

/-- The configuration fields read by `DiT.generate_actions`. -/
structure GenCfg : Type where
  nObsSteps : ℕ
  nActionSteps : ℕ
  horizon : ℕ

/-- `DiT.generate_actions(batch)`.  `batchState` is
`batch["observation.state"]` of shape `(B, n_obs_steps, state_dim)`.  The call
`conditional_sample(batch_size, global_cond)` (whose output is a
`(batch_size, horizon, action_dim)` trajectory built from the conditioning) is
passed in as the function `sampler` from the batch size; the Python `assert`
on the time length is an `Except.error`.  The slice
`actions[:, n_obs_steps - 1 : n_obs_steps - 1 + n_action_steps]` becomes a
`drop`/`take` on each batch row. -/
def generateActions (cfg : GenCfg) (sampler : ℕ → Cube α) (batchState : Cube α) :
    Except String (Cube α) :=
  let nObsSteps := (batchState.headD []).length
  if nObsSteps = cfg.nObsSteps then
    let actions := sampler batchState.length
    let start := cfg.nObsSteps - 1
    Except.ok (actions.map (fun row => (row.drop start).take cfg.nActionSteps))
  else Except.error "assert n_obs_steps == self.config.n_obs_steps"

/-! ### `DiT.compute_loss` -/

/-- The configuration fields read by `DiT.compute_loss`. -/
structure LossCfg : Type where
  nObsSteps : ℕ
  horizon : ℕ
  predictionType : String

/-- A training batch as `DiT.compute_loss` sees it: each key that the method
inspects is an `Option` field, `none` meaning the key is absent. -/
structure LossBatch (α : Type) : Type where
  obsState : Option (Cube α)
  obsImages : Option (Cube α)
  obsEnv : Option (Mat α)
  action : Option (Cube α)
  actionIsPad : Option (List (List Bool))

/-- `F.mse_loss(pred, target, reduction="none")` followed by `.mean()`:
the mean of the elementwise squared differences. -/
def mseMean (X Y : Cube α) : α :=
  let d := List.zipWith (fun a b => (a - b) ^ 2) X.flatten.flatten Y.flatten.flatten
  d.sum / (d.length : α)

/-- `DiT.compute_loss(batch)`.  The sampled Gaussian noise `eps` and the
uniformly sampled `timesteps` are modelled as explicit arguments, and the
external collaborators are function parameters: `prepCond` is
`_prepare_global_conditioning` (it reads exactly the keys
`observation.state`, `observation.images`, `observation.environment_state`),
`addNoise` is the scheduler's `add_noise`, and `net` is
`self.noise_net(noisy_trajectory, timesteps, global_cond)[1]`.  Python
`assert` failures and the `ValueError` of the prediction-type dispatch are
`Except.error`s. -/
def computeLoss (cfg : LossCfg)
    (prepCond : Option (Cube α) → Option (Cube α) → Option (Mat α) → Mat α)
    (addNoise : Cube α → Cube α → List ℕ → Cube α)
    (net : Cube α → List ℕ → Mat α → Cube α)
    (batch : LossBatch α) (eps : Cube α) (timesteps : List ℕ) :
    Except String α :=
  match batch.obsState, batch.action, batch.actionIsPad with
  | some state, some action, some _ =>
    if batch.obsImages.isSome || batch.obsEnv.isSome then
      let nObsSteps := (state.headD []).length
      let horizon := (action.headD []).length
      if horizon = cfg.horizon then
        if nObsSteps = cfg.nObsSteps then
          let globalCond := prepCond batch.obsState batch.obsImages batch.obsEnv
          let noisyTrajectory := addNoise action eps timesteps
          let pred := net noisyTrajectory timesteps globalCond
          match predictionTarget cfg.predictionType eps action with
          | Except.ok target => Except.ok (mseMean pred target)
          | Except.error e => Except.error e
        else Except.error "assert n_obs_steps == self.config.n_obs_steps"
      else Except.error "assert horizon == self.config.horizon"
    else Except.error "assert observation.images or observation.environment_state in batch"
  | _, _, _ => Except.error "assert batch keys include observation.state, action, action_is_pad"

/-! ### `DiT.conditional_sample`

The sample, conditioning-cache and global-conditioning tensors are abstracted
to type parameters `S`, `C`, `G`; `forwardEnc` is
`self.noise_net.forward_enc`, `forwardDec` is `self.noise_net.forward_dec`
(with the `torch.full` timestep broadcast absorbed into the `ℕ` argument) and
`schedStep` is `self.noise_scheduler.step(model_output, t, sample).prev_sample`
(external diffusers code).  The initial `torch.randn` draw is the explicit
argument `initNoise`. -/

/-- Modelled from the spec: the diffusers scheduler's
`set_timesteps(num_inference_steps)` (external library code, called at the top
of `conditional_sample`) produces "the descending timestep sequence used at
inference" (§4.5), a "subsampled schedule of `num_inference_steps` chosen from
the `num_train_timesteps` grid" (§4.5), "a fixed decreasing schedule of length
`num_inference_steps`" (§3). -/
def setTimesteps (numTrainTimesteps numInferenceSteps : ℕ) : List ℕ :=
  ((List.range numInferenceSteps).map
    (fun i => i * (numTrainTimesteps / numInferenceSteps))).reverse

theorem setTimesteps_length (numTrainTimesteps numInferenceSteps : ℕ) :
    (setTimesteps numTrainTimesteps numInferenceSteps).length = numInferenceSteps := by
  simp [setTimesteps]

/-- `DiT.conditional_sample(batch_size, global_cond)` after the prior draw:
the encoder runs once, then the timestep loop threads the sample through
decoder + scheduler step. -/
def conditionalSample {S C G : Type} (forwardEnc : G → C) (forwardDec : S → ℕ → C → S)
    (schedStep : S → ℕ → S → S) (timesteps : List ℕ) (initNoise : S)
    (globalCond : G) : S :=
  let encCache := forwardEnc globalCond
  timesteps.foldl (fun sample t => schedStep (forwardDec sample t encCache) t sample)
    initNoise

/-- One recorded iteration of the denoising loop: the conditioning cache
passed to the decoder, the timestep, and the sample before and after. -/
structure DenoiseStep (S C : Type) : Type where
  cacheArg : C
  tIn : ℕ
  sampleIn : S
  sampleOut : S

/-- The denoising loop of `conditional_sample`, instrumented to record one
`DenoiseStep` per decoder invocation. -/
def denoiseTrace {S C : Type} (forwardDec : S → ℕ → C → S) (schedStep : S → ℕ → S → S)
    (encCache : C) : List ℕ → S → List (DenoiseStep S C)
  | [], _ => []
  | t :: rest, sample =>
    let sample2 := schedStep (forwardDec sample t encCache) t sample
    ⟨encCache, t, sample, sample2⟩ ::
      denoiseTrace forwardDec schedStep encCache rest sample2

/-- `conditional_sample` instrumented: the encoder output is computed once and
handed to every loop iteration. -/
def conditionalSampleTrace {S C G : Type} (forwardEnc : G → C)
    (forwardDec : S → ℕ → C → S) (schedStep : S → ℕ → S → S)
    (timesteps : List ℕ) (initNoise : S) (globalCond : G) : List (DenoiseStep S C) :=
  denoiseTrace forwardDec schedStep (forwardEnc globalCond) timesteps initNoise

theorem denoiseTrace_length {S C : Type} (forwardDec : S → ℕ → C → S)
    (schedStep : S → ℕ → S → S) (encCache : C) (ts : List ℕ) (s : S) :
    (denoiseTrace forwardDec schedStep encCache ts s).length = ts.length := by
  induction ts generalizing s with
  | nil => rfl
  | cons t rest ih => simp [denoiseTrace, ih]

theorem denoiseTrace_map_tIn {S C : Type} (forwardDec : S → ℕ → C → S)
    (schedStep : S → ℕ → S → S) (encCache : C) (ts : List ℕ) (s : S) :
    (denoiseTrace forwardDec schedStep encCache ts s).map
      (fun e => e.tIn) = ts := by
  induction ts generalizing s with
  | nil => rfl
  | cons t rest ih => simp [denoiseTrace, ih]

theorem denoiseTrace_cacheArg {S C : Type} (forwardDec : S → ℕ → C → S)
    (schedStep : S → ℕ → S → S) (encCache : C) (ts : List ℕ) (s : S) :
    ∀ e ∈ denoiseTrace forwardDec schedStep encCache ts s, e.cacheArg = encCache := by
  induction ts generalizing s with
  | nil => intro e he; simp [denoiseTrace] at he
  | cons t rest ih =>
    intro e he
    simp only [denoiseTrace, List.mem_cons] at he
    rcases he with he | he
    · rw [he]
    · exact ih _ e he

theorem denoiseTrace_get_zero_sampleIn {S C : Type} (forwardDec : S → ℕ → C → S)
    (schedStep : S → ℕ → S → S) (encCache : C) (ts : List ℕ) (s : S)
    (h : 0 < (denoiseTrace forwardDec schedStep encCache ts s).length) :
    ((denoiseTrace forwardDec schedStep encCache ts s).get ⟨0, h⟩).sampleIn = s := by
  cases ts with
  | nil => simp [denoiseTrace] at h
  | cons t rest => rfl

theorem denoiseTrace_chain {S C : Type} (forwardDec : S → ℕ → C → S)
    (schedStep : S → ℕ → S → S) (encCache : C) (ts : List ℕ) (s : S) :
    ∀ (i : ℕ) (h1 : i < (denoiseTrace forwardDec schedStep encCache ts s).length)
      (h2 : i + 1 < (denoiseTrace forwardDec schedStep encCache ts s).length),
      ((denoiseTrace forwardDec schedStep encCache ts s).get ⟨i + 1, h2⟩).sampleIn =
        ((denoiseTrace forwardDec schedStep encCache ts s).get ⟨i, h1⟩).sampleOut := by
  induction ts generalizing s with
  | nil => intro i h1 h2; simp [denoiseTrace] at h1
  | cons t rest ih =>
    intro i h1 h2
    cases i with
    | zero =>
      have h0 : 0 < (denoiseTrace forwardDec schedStep encCache rest
          (schedStep (forwardDec s t encCache) t s)).length := by
        simpa [denoiseTrace] using h2
      simpa [denoiseTrace] using
        denoiseTrace_get_zero_sampleIn forwardDec schedStep encCache rest _ h0
    | succ j =>
      have hj1 : j < (denoiseTrace forwardDec schedStep encCache rest
          (schedStep (forwardDec s t encCache) t s)).length := by
        simpa [denoiseTrace] using h1
      have hj2 : j + 1 < (denoiseTrace forwardDec schedStep encCache rest
          (schedStep (forwardDec s t encCache) t s)).length := by
        simpa [denoiseTrace] using h2
      simpa [denoiseTrace] using ih _ j hj1 hj2

theorem denoiseTrace_empty_iff {S C : Type} (forwardDec : S → ℕ → C → S)
    (schedStep : S → ℕ → S → S) (encCache : C) (ts : List ℕ) (s : S) :
    denoiseTrace forwardDec schedStep encCache ts s = [] ↔ ts = [] := by
  cases ts with
  | nil => simp [denoiseTrace]
  | cons t rest => simp [denoiseTrace]

theorem denoiseTrace_foldl {S C : Type} (forwardDec : S → ℕ → C → S)
    (schedStep : S → ℕ → S → S) (encCache : C) (ts : List ℕ) (s : S) :
    ts.foldl (fun sample t => schedStep (forwardDec sample t encCache) t sample) s =
      ((denoiseTrace forwardDec schedStep encCache ts s).getLastD
        ⟨encCache, 0, s, s⟩).sampleOut := by
  induction ts generalizing s with
  | nil => rfl
  | cons t rest ih =>
    simp only [List.foldl_cons, denoiseTrace, List.getLastD_cons]
    rw [ih]
    cases hrest : rest with
    | nil => simp [denoiseTrace]
    | cons u us =>
      have hne : denoiseTrace forwardDec schedStep encCache (u :: us)
          (schedStep (forwardDec s t encCache) t s) ≠ [] := by
        rw [Ne, denoiseTrace_empty_iff]
        simp
      rw [List.getLastD_eq_getLast?, List.getLastD_eq_getLast?]
      rw [List.getLast?_eq_getLast _ hne]
      simp

/-- The loop body of `conditional_sample` acting on the explicit loop state
`(enc_cache, sample)`: only the sample component is updated. -/
def decStepPair {S C : Type} (forwardDec : S → ℕ → C → S) (schedStep : S → ℕ → S → S)
    (state : C × S) (t : ℕ) : C × S :=
  (state.1, schedStep (forwardDec state.2 t state.1) t state.2)

/-- `conditional_sample` with its full mutable state `(enc_cache, sample)`
made explicit: the encoder runs once before the loop. -/
def conditionalSamplePair {S C G : Type} (forwardEnc : G → C)
    (forwardDec : S → ℕ → C → S) (schedStep : S → ℕ → S → S)
    (timesteps : List ℕ) (initNoise : S) (globalCond : G) : C × S :=
  timesteps.foldl (decStepPair forwardDec schedStep) (forwardEnc globalCond, initNoise)

theorem foldl_decStepPair_fst {S C : Type} (forwardDec : S → ℕ → C → S)
    (schedStep : S → ℕ → S → S) (ts : List ℕ) (p : C × S) :
    (ts.foldl (decStepPair forwardDec schedStep) p).1 = p.1 := by
  induction ts generalizing p with
  | nil => rfl
  | cons t rest ih => simp [List.foldl_cons, ih, decStepPair]

theorem foldl_decStepPair_snd {S C : Type} (forwardDec : S → ℕ → C → S)
    (schedStep : S → ℕ → S → S) (ts : List ℕ) (c : C) (s : S) :
    (ts.foldl (decStepPair forwardDec schedStep) (c, s)).2 =
      ts.foldl (fun sample t => schedStep (forwardDec sample t c) t sample) s := by
  induction ts generalizing s with
  | nil => rfl
  | cons t rest ih => simp [List.foldl_cons, decStepPair, ih]

/-! ### Claims C1, C9, C10 -/

/-- C1: for every batch whose `observation.state` has time length equal to the
configured `n_obs_steps`, and under the configuration precondition
`n_action_steps ≤ horizon - n_obs_steps + 1` (stated subtraction-free as
`n_action_steps + n_obs_steps ≤ horizon + 1`), `generate_actions` returns
exactly `n_action_steps` actions per batch element, obtained by slicing the
horizon-length sampled trajectory starting at index `n_obs_steps - 1` along
the time axis. -/
theorem generate_actions_returns_n_action_steps_slice (cfg : GenCfg)
    (sampler : ℕ → Cube α) (batchState : Cube α)
    (hobs : (batchState.headD []).length = cfg.nObsSteps)
    (hsamp : ∀ b : ℕ, ∀ row ∈ sampler b, row.length = cfg.horizon)
    (h1 : 1 ≤ cfg.nObsSteps)
    (hpre : cfg.nActionSteps + cfg.nObsSteps ≤ cfg.horizon + 1) :
    generateActions cfg sampler batchState =
      Except.ok ((sampler batchState.length).map
        (fun row => (row.drop (cfg.nObsSteps - 1)).take cfg.nActionSteps)) ∧
    ∀ row ∈ (sampler batchState.length).map
        (fun row => (row.drop (cfg.nObsSteps - 1)).take cfg.nActionSteps),
      row.length = cfg.nActionSteps := by
  constructor
  · have hobs2 : ((batchState.head?).getD []).length = cfg.nObsSteps := by
      simpa using hobs
    simp [generateActions, hobs2]
  · intro row hrow
    rw [List.mem_map] at hrow
    obtain ⟨r, hr, hrw⟩ := hrow
    have hlen := hsamp batchState.length r hr
    subst hrw
    simp only [List.length_take, List.length_drop, hlen]
    omega

/-- Witness for C1 at a concrete batch (`B = 1`, `n_obs_steps = 2`,
`n_action_steps = 4`, `horizon = 8`). -/
theorem generate_actions_returns_n_action_steps_slice_witness :
    generateActions ⟨2, 4, 8⟩
        (fun b => List.replicate b (List.replicate 8 [(0 : ℚ)]))
        [[[1], [2]]] =
      Except.ok ((List.replicate 1 (List.replicate 8 [(0 : ℚ)])).map
        (fun row => (row.drop 1).take 4)) ∧
    ∀ row ∈ (List.replicate 1 (List.replicate 8 [(0 : ℚ)])).map
        (fun row => (row.drop 1).take 4),
      row.length = 4 := by
  have h := generate_actions_returns_n_action_steps_slice ⟨2, 4, 8⟩
    (fun b => List.replicate b (List.replicate 8 [(0 : ℚ)]))
    [[[1], [2]]]
    (by decide)
    (by
      intro b row hr
      rw [List.eq_of_mem_replicate hr]
      simp)
    (by decide) (by decide)
  simpa using h

/-- C9: every unsupported configuration name — a noise-scheduler type other
than `DDPM`/`DDIM`, a vision-backbone normalisation-layer name outside the
supported set, a feedforward-activation name other than `relu`/`gelu`/`glu`,
or a `prediction_type` other than `epsilon`/`sample` — produces a descriptive
error (an `Except.error` carrying the offending name), and the supported
names produce their variant rather than any silent default. -/
theorem unsupported_config_names_error :
    (∀ name : String, name ≠ "DDPM" → name ≠ "DDIM" →
      makeNoiseScheduler name =
        Except.error ("Unsupported noise scheduler type " ++ name)) ∧
    makeNoiseScheduler "DDPM" = Except.ok SchedulerKind.ddpm ∧
    makeNoiseScheduler "DDIM" = Except.ok SchedulerKind.ddim ∧
    (∀ (name : String) (g : ℕ), name ≠ "batch_norm" → name ≠ "group_norm" →
      name ≠ "diffusion_policy" →
      makeNorm name g = Except.error ("Missing norm layer: " ++ name)) ∧
    (∀ g : ℕ, makeNorm "batch_norm" g = Except.ok NormKind.batchNorm ∧
      makeNorm "group_norm" g = Except.ok (NormKind.groupNorm g) ∧
      makeNorm "diffusion_policy" g = Except.ok NormKind.diffusionPolicy) ∧
    (∀ a : String, a ≠ "relu" → a ≠ "gelu" → a ≠ "glu" →
      getActivationFn a =
        Except.error ("activation should be relu/gelu/glu, not " ++ a ++ ".")) ∧
    getActivationFn "relu" = Except.ok ActivationKind.relu ∧
    getActivationFn "gelu" = Except.ok ActivationKind.gelu ∧
    getActivationFn "glu" = Except.ok ActivationKind.glu ∧
    (∀ (T : Type) (pt : String) (eps action : T), pt ≠ "epsilon" → pt ≠ "sample" →
      predictionTarget pt eps action =
        Except.error ("Unsupported prediction type " ++ pt)) ∧
    (∀ (T : Type) (eps action : T),
      predictionTarget "epsilon" eps action = Except.ok eps ∧
      predictionTarget "sample" eps action = Except.ok action) := by
  refine ⟨?_, rfl, rfl, ?_, ?_, ?_, rfl, rfl, rfl, ?_, ?_⟩
  · intro name h1 h2
    simp [makeNoiseScheduler, h1, h2]
  · intro name g h1 h2 h3
    simp [makeNorm, h1, h2, h3]
  · intro g
    refine ⟨rfl, ?_, rfl⟩
    simp [makeNorm]
  · intro a h1 h2 h3
    simp [getActivationFn, h1, h2, h3]
  · intro T pt eps action h1 h2
    simp [predictionTarget, h1, h2]
  · intro T eps action
    exact ⟨rfl, by simp [predictionTarget]⟩

/-- Witness for C9 at concrete unsupported names. -/
theorem unsupported_config_names_error_witness :
    makeNoiseScheduler "euler" =
      Except.error "Unsupported noise scheduler type euler" ∧
    makeNorm "instance_norm" 8 =
      Except.error "Missing norm layer: instance_norm" ∧
    getActivationFn "tanh" =
      Except.error "activation should be relu/gelu/glu, not tanh." ∧
    predictionTarget "v_prediction" (0 : ℕ) 1 =
      Except.error "Unsupported prediction type v_prediction" := by
  have h := unsupported_config_names_error
  exact ⟨h.1 "euler" (by decide) (by decide),
    h.2.2.2.1 "instance_norm" 8 (by decide) (by decide) (by decide),
    h.2.2.2.2.2.1 "tanh" (by decide) (by decide) (by decide),
    h.2.2.2.2.2.2.2.2.2.1 ℕ "v_prediction" 0 1 (by decide) (by decide)⟩

/-- C10: `compute_loss` fails its key assertion when `action_is_pad` is
absent from the batch, yet the value stored under that key has no influence
on the returned loss: two batches identical except for `action_is_pad`, with
the same sampled noise and timesteps (and the same conditioning, scheduler
and network collaborators), yield the same result. -/
theorem compute_loss_ignores_action_is_pad (cfg : LossCfg)
    (prepCond : Option (Cube α) → Option (Cube α) → Option (Mat α) → Mat α)
    (addNoise : Cube α → Cube α → List ℕ → Cube α)
    (net : Cube α → List ℕ → Mat α → Cube α)
    (os : Option (Cube α)) (oi : Option (Cube α)) (oe : Option (Mat α))
    (oa : Option (Cube α)) (p1 p2 : List (List Bool))
    (eps : Cube α) (timesteps : List ℕ) :
    computeLoss cfg prepCond addNoise net ⟨os, oi, oe, oa, some p1⟩ eps timesteps =
      computeLoss cfg prepCond addNoise net ⟨os, oi, oe, oa, some p2⟩ eps timesteps ∧
    computeLoss cfg prepCond addNoise net ⟨os, oi, oe, oa, none⟩ eps timesteps =
      Except.error "assert batch keys include observation.state, action, action_is_pad" := by
  cases os <;> cases oa <;> simp [computeLoss]

/-- C2: for every batch (initial noise, conditioning) and every choice of the
collaborator functions, one `conditional_sample` call invokes the denoising
decoder `forward_dec` exactly `num_inference_steps` times — once per element
of the scheduler's inference timestep sequence (the trace has length
`num_inference_steps` and its timesteps are exactly that sequence) — and the
loop is strictly sequential: each iteration's output sample is the next
iteration's input, and the returned sample is the last iteration's output. -/
theorem conditional_sample_invokes_decoder_num_inference_steps {S C G : Type}
    (forwardEnc : G → C) (forwardDec : S → ℕ → C → S) (schedStep : S → ℕ → S → S)
    (numTrainTimesteps numInferenceSteps : ℕ) (initNoise : S) (globalCond : G) :
    (conditionalSampleTrace forwardEnc forwardDec schedStep
        (setTimesteps numTrainTimesteps numInferenceSteps) initNoise globalCond).length =
      numInferenceSteps ∧
    (conditionalSampleTrace forwardEnc forwardDec schedStep
        (setTimesteps numTrainTimesteps numInferenceSteps) initNoise globalCond).map
      (fun e => e.tIn) = setTimesteps numTrainTimesteps numInferenceSteps ∧
    (∀ (i : ℕ)
      (h1 : i < (conditionalSampleTrace forwardEnc forwardDec schedStep
        (setTimesteps numTrainTimesteps numInferenceSteps) initNoise globalCond).length)
      (h2 : i + 1 < (conditionalSampleTrace forwardEnc forwardDec schedStep
        (setTimesteps numTrainTimesteps numInferenceSteps) initNoise globalCond).length),
      ((conditionalSampleTrace forwardEnc forwardDec schedStep
        (setTimesteps numTrainTimesteps numInferenceSteps) initNoise globalCond).get
          ⟨i + 1, h2⟩).sampleIn =
        ((conditionalSampleTrace forwardEnc forwardDec schedStep
          (setTimesteps numTrainTimesteps numInferenceSteps) initNoise globalCond).get
            ⟨i, h1⟩).sampleOut) ∧
    conditionalSample forwardEnc forwardDec schedStep
        (setTimesteps numTrainTimesteps numInferenceSteps) initNoise globalCond =
      ((conditionalSampleTrace forwardEnc forwardDec schedStep
        (setTimesteps numTrainTimesteps numInferenceSteps) initNoise globalCond).getLastD
          ⟨forwardEnc globalCond, 0, initNoise, initNoise⟩).sampleOut := by
  refine ⟨?_, ?_, ?_, ?_⟩
  · simp [conditionalSampleTrace, denoiseTrace_length, setTimesteps_length]
  · exact denoiseTrace_map_tIn forwardDec schedStep (forwardEnc globalCond) _ initNoise
  · exact denoiseTrace_chain forwardDec schedStep (forwardEnc globalCond) _ initNoise
  · simpa [conditionalSample, conditionalSampleTrace] using
      denoiseTrace_foldl forwardDec schedStep (forwardEnc globalCond)
        (setTimesteps numTrainTimesteps numInferenceSteps) initNoise

/-- Witness for C2 at concrete collaborator functions and
`num_train_timesteps = 10`, `num_inference_steps = 5`. -/
theorem conditional_sample_invokes_decoder_num_inference_steps_witness :
    (conditionalSampleTrace (fun g : ℕ => g) (fun s t c => s + t + c)
        (fun m _ _ => m) (setTimesteps 10 5) 1 2).length = 5 ∧
    ((conditionalSampleTrace (fun g : ℕ => g) (fun s t c => s + t + c)
        (fun m _ _ => m) (setTimesteps 10 5) 1 2).get ⟨1, by decide⟩).sampleIn =
      ((conditionalSampleTrace (fun g : ℕ => g) (fun s t c => s + t + c)
        (fun m _ _ => m) (setTimesteps 10 5) 1 2).get ⟨0, by decide⟩).sampleOut := by
  have h := conditional_sample_invokes_decoder_num_inference_steps
    (fun g : ℕ => g) (fun s t c => s + t + c) (fun m _ _ => m) 10 5 1 2
  exact ⟨h.1, h.2.2.1 0 (by decide) (by decide)⟩

/-- C7: within one `conditional_sample` call the conditioning encoder runs
exactly once, before the timestep loop, and the cache is never mutated: every
recorded decoder invocation reads the very same cache value `forward_enc
(global_cond)`; one decoder+scheduler step leaves the cache component of the
explicit loop state unchanged for every cache, sample and timestep; and the
state-explicit loop ends with the untouched cache while computing the same
sample as `conditional_sample`. -/
theorem conditional_sample_cache_computed_once_never_mutated {S C G : Type}
    (forwardEnc : G → C) (forwardDec : S → ℕ → C → S) (schedStep : S → ℕ → S → S)
    (timesteps : List ℕ) (initNoise : S) (globalCond : G) :
    (∀ e ∈ conditionalSampleTrace forwardEnc forwardDec schedStep timesteps
        initNoise globalCond, e.cacheArg = forwardEnc globalCond) ∧
    (∀ (cache : C) (sample : S) (t : ℕ),
      (decStepPair forwardDec schedStep (cache, sample) t).1 = cache) ∧
    (conditionalSamplePair forwardEnc forwardDec schedStep timesteps initNoise
        globalCond).1 = forwardEnc globalCond ∧
    (conditionalSamplePair forwardEnc forwardDec schedStep timesteps initNoise
        globalCond).2 = conditionalSample forwardEnc forwardDec schedStep timesteps
        initNoise globalCond := by
  refine ⟨?_, ?_, ?_, ?_⟩
  · exact denoiseTrace_cacheArg forwardDec schedStep (forwardEnc globalCond)
      timesteps initNoise
  · intro cache sample t
    rfl
  · simpa [conditionalSamplePair] using
      foldl_decStepPair_fst forwardDec schedStep timesteps
        (forwardEnc globalCond, initNoise)
  · simpa [conditionalSamplePair, conditionalSample] using
      foldl_decStepPair_snd forwardDec schedStep timesteps
        (forwardEnc globalCond) initNoise

/-- Witness for C7 at concrete collaborator functions: the first recorded
decoder invocation reads exactly the once-computed encoder output. -/
theorem conditional_sample_cache_computed_once_never_mutated_witness :
    ((conditionalSampleTrace (fun g : ℕ => g) (fun s t c => s + t + c)
        (fun m _ _ => m) (setTimesteps 10 5) 1 2).get ⟨0, by decide⟩).cacheArg = 2 := by
  have h := conditional_sample_cache_computed_once_never_mutated
    (fun g : ℕ => g) (fun s t c => s + t + c) (fun m _ _ => m) (setTimesteps 10 5) 1 2
  exact h.1 _ (List.get_mem _ _ _)

/-! ### `DiTPolicy.reset` / `DiTPolicy.select_action`

Observations and actions are abstracted to type parameters `O` and `A`.  The
normalisation collaborators are pure functions composed into the sampling
function `gen`, which stands for `generate_actions` on the stacked
observation window followed by `unnormalize_outputs` (by C1 it returns
exactly `n_action_steps` actions). -/

/-- The configuration fields driving the queue protocol. -/
structure PolicyCfg : Type where
  nObsSteps : ℕ
  nActionSteps : ℕ
  horizon : ℕ

/-- The two bounded queues owned by `DiTPolicy`. -/
structure PolicyState (O A : Type) : Type where
  obsQueue : List O
  actionQueue : List A

/-- `DiTPolicy.reset`: fresh empty queues. -/
def policyReset (O A : Type) : PolicyState O A := ⟨[], []⟩

/-- Modelled from the spec: `populate_queues` (imported from
`lerobot.common.policies.utils`, repository code not under `src/`) pushes the
new observation into the bounded observation deque; "if a queue was empty
prior to this push, back-fill it by duplicating the new observation until the
queue reaches capacity `n_obs_steps`" (§4.7), otherwise the deque keeps the
latest `n_obs_steps` entries.  The action queue has no matching key in an
observation batch and is left untouched by it. -/
def pushObs {O : Type} (capacity : ℕ) (q : List O) (o : O) : List O :=
  if q.isEmpty then List.replicate capacity o
  else
    let q2 := q ++ [o]
    q2.drop (q2.length - capacity)

/-- One `DiTPolicy.select_action` call: push the observation; if the action
queue is empty, refill it from the sampled actions (a bounded deque `extend`
keeps the latest `n_action_steps` of them) and in every case pop the first
queued action.  Returns the popped action, the next state, and whether the
diffusion sampling call was invoked at this step. -/
def selectAction {O A : Type} (cfg : PolicyCfg) (gen : List O → List A)
    (s : PolicyState O A) (o : O) : Option A × PolicyState O A × Bool :=
  let obsQueue := pushObs cfg.nObsSteps s.obsQueue o
  if s.actionQueue.isEmpty then
    let actions := gen obsQueue
    let actionQueue := actions.drop (actions.length - cfg.nActionSteps)
    (actionQueue.head?, ⟨obsQueue, actionQueue.tail⟩, true)
  else
    (s.actionQueue.head?, ⟨obsQueue, s.actionQueue.tail⟩, false)

/-- Run `select_action` over consecutive observations, recording for each
step whether the diffusion sampling call was invoked. -/
def runPolicyFlags {O A : Type} (cfg : PolicyCfg) (gen : List O → List A) :
    PolicyState O A → List O → List Bool
  | _, [] => []
  | s, o :: os =>
    (selectAction cfg gen s o).2.2 ::
      runPolicyFlags cfg gen (selectAction cfg gen s o).2.1 os

theorem selectAction_queue_empty {O A : Type} (cfg : PolicyCfg)
    (gen : List O → List A) (s : PolicyState O A) (o : O)
    (h : s.actionQueue = [])
    (hlen : (gen (pushObs cfg.nObsSteps s.obsQueue o)).length = cfg.nActionSteps) :
    selectAction cfg gen s o =
      ((gen (pushObs cfg.nObsSteps s.obsQueue o)).head?,
        ⟨pushObs cfg.nObsSteps s.obsQueue o,
          (gen (pushObs cfg.nObsSteps s.obsQueue o)).tail⟩, true) := by
  simp [selectAction, h, hlen]

theorem selectAction_queue_nonempty {O A : Type} (cfg : PolicyCfg)
    (gen : List O → List A) (s : PolicyState O A) (o : O)
    (h : s.actionQueue ≠ []) :
    selectAction cfg gen s o =
      (s.actionQueue.head?,
        ⟨pushObs cfg.nObsSteps s.obsQueue o, s.actionQueue.tail⟩, false) := by
  simp [selectAction, h]

theorem list_eq_of_length_four {A : Type} {l : List A} (h : l.length = 4) :
    ∃ a b c d, l = [a, b, c, d] := by
  rcases l with _ | ⟨a, l⟩
  · simp at h
  rcases l with _ | ⟨b, l⟩
  · simp at h
  rcases l with _ | ⟨c, l⟩
  · simp at h
  rcases l with _ | ⟨d, l⟩
  · simp at h
  rcases l with _ | ⟨e, l⟩
  · exact ⟨a, b, c, d, rfl⟩
  · simp at h

/-- C8 counterexample: with `n_obs_steps = 2`, `horizon = 8`,
`n_action_steps = 4`, a fresh policy and 5 consecutive `select_action` calls,
the refill/sampling flags are not `true` exactly at the zero-indexed steps
`{1, 5}`: the very first call (step 0) already refills, because the action
queue starts empty. -/
theorem select_action_refill_steps_counterexample :
    ¬ (∀ i < (runPolicyFlags ⟨2, 4, 8⟩ (fun _ => [0, 1, 2, 3])
          (policyReset ℕ ℕ) [0, 0, 0, 0, 0]).length,
        ((runPolicyFlags ⟨2, 4, 8⟩ (fun _ => [0, 1, 2, 3])
          (policyReset ℕ ℕ) [0, 0, 0, 0, 0]).getD i false = true ↔
          (i = 1 ∨ i = 5))) := by
  decide

/-- C8 (amended): starting from a freshly reset policy configured with
`n_obs_steps = 2`, `horizon = 8`, `n_action_steps = 4`, over 5 consecutive
`select_action` calls the action queue is refilled (and the diffusion
sampling call invoked) exactly at steps 0 and 4 when steps are zero-indexed —
i.e. at steps 1 and 5 of one-indexed counting — so the sampling call happens
exactly twice over the 5 steps, with every other call simply popping one
queued action. -/
theorem select_action_refill_steps_zero_and_four (O A : Type)
    (gen : List O → List A) (hgen : ∀ w, (gen w).length = 4)
    (o1 o2 o3 o4 o5 : O) :
    runPolicyFlags ⟨2, 4, 8⟩ gen (policyReset O A) [o1, o2, o3, o4, o5] =
      [true, false, false, false, true] ∧
    (runPolicyFlags ⟨2, 4, 8⟩ gen (policyReset O A)
      [o1, o2, o3, o4, o5]).count true = 2 := by
  obtain ⟨a1, a2, a3, a4, hga⟩ :=
    list_eq_of_length_four (hgen (pushObs 2 ([] : List O) o1))
  have hflags : runPolicyFlags ⟨2, 4, 8⟩ gen (policyReset O A)
      [o1, o2, o3, o4, o5] = [true, false, false, false, true] := by
    simp [runPolicyFlags, selectAction, policyReset, hga]
  refine ⟨hflags, ?_⟩
  rw [hflags]
  decide

/-- Witness for C8 (amended) at a concrete `gen` and concrete observations. -/
theorem select_action_refill_steps_zero_and_four_witness :
    runPolicyFlags ⟨2, 4, 8⟩ (fun _ => [10, 20, 30, 40])
      (policyReset ℕ ℕ) [7, 7, 7, 7, 7] = [true, false, false, false, true] ∧
    (runPolicyFlags ⟨2, 4, 8⟩ (fun _ => [10, 20, 30, 40])
      (policyReset ℕ ℕ) [7, 7, 7, 7, 7]).count true = 2 :=
  select_action_refill_steps_zero_and_four ℕ ℕ (fun _ => [10, 20, 30, 40])
    (fun _ => rfl) 7 7 7 7 7

/-! ### Modulation layers, decoder layer, output head, encoder layer

`x` tensors are `(T, B, D)` rank-3 tensors (token axis first), `t` (a time
embedding, output of `TimeNetwork`) is a `(B, D)` rank-2 tensor, conditioning
caches are `(T_cond, B, D)` rank-3 tensors.  `nn.MultiheadAttention`,
`nn.LayerNorm`, `nn.SiLU` and the configured feedforward activation are
library modules and enter as function parameters; dropout is modelled in eval
mode (identity). -/

/-- Parameters of `ShiftScaleMod`: two `nn.Linear(dim, dim)` layers. -/
structure ShiftScaleModP (α : Type) : Type where
  scale : LinearP α
  shift : LinearP α

/-- `ShiftScaleMod.forward(x, c)`: `c = SiLU(c)`, then
`x * scale(c)[None] + shift(c)[None]` — the `[None]` broadcasts the `(B, D)`
modulation over the leading token axis of `x`. -/
def shiftScaleModForward (silu : α → α) (p : ShiftScaleModP α)
    (x : Cube α) (c : Mat α) : Cube α :=
  let c2 := c.map (List.map silu)
  let sc := c2.map p.scale.apply
  let sh := c2.map p.shift.apply
  x.map (fun xt => (xt.zip (sc.zip sh)).map
    (fun q => vecAdd (vecMul q.1 q.2.1) q.2.2))

/-- `ShiftScaleMod.reset_parameters`: `xavier_uniform_` draws for the two
weights (arbitrary values, supplied as arguments) and zeroed biases. -/
def shiftScaleModReset (dim : ℕ) (wScale wShift : Mat α) : ShiftScaleModP α :=
  ⟨⟨wScale, zeroVec dim⟩, ⟨wShift, zeroVec dim⟩⟩

/-- Parameters of `ZeroScaleMod`: one `nn.Linear(dim, dim)` layer. -/
structure ZeroScaleModP (α : Type) : Type where
  scale : LinearP α

/-- `ZeroScaleMod.forward(x, c)`: `c = SiLU(c)`, then `x * scale(c)[None]`. -/
def zeroScaleModForward (silu : α → α) (p : ZeroScaleModP α)
    (x : Cube α) (c : Mat α) : Cube α :=
  let c2 := c.map (List.map silu)
  let sc := c2.map p.scale.apply
  x.map (fun xt => (xt.zip sc).map (fun q => vecMul q.1 q.2))

/-- `ZeroScaleMod.reset_parameters`: `nn.init.zeros_` on both the weight and
the bias of the scale layer. -/
def zeroScaleModReset (dim : ℕ) : ZeroScaleModP α :=
  ⟨⟨zeroMat dim dim, zeroVec dim⟩⟩

/-- Parameters of `DiTDecoderLayer` (the attention and norm modules enter as
functions, so only the feed-forward linears and the modulations appear). -/
structure DiTDecoderLayerP (α : Type) : Type where
  linear1 : LinearP α
  linear2 : LinearP α
  attnMod1 : ShiftScaleModP α
  attnMod2 : ZeroScaleModP α
  mlpMod1 : ShiftScaleModP α
  mlpMod2 : ZeroScaleModP α

/-- Library-module behaviour used by `DiTDecoderLayer`: `self_attn` (batch
of `(T, B, D)` query/key/value), the two layer norms acting on each `(t, b)`
feature vector, `nn.SiLU` inside the modulations and the configured
feedforward activation. -/
structure DiTDecoderLayerFns (α : Type) : Type where
  selfAttn : Cube α → Cube α → Cube α → Cube α
  norm1 : Vec α → Vec α
  norm2 : Vec α → Vec α
  silu : α → α
  activation : α → α

/-- The modulation signal computed at the top of `DiTDecoderLayer.forward`:
`cond = torch.mean(cond, axis=0)` (token-axis mean of the `(T_cond, B, D)`
cache, one vector per batch element) followed by `cond = cond + t`. -/
def condSig (cond : Cube α) (t : Mat α) : Mat α :=
  matAdd (cubeMean0 cond) t

/-- The body of `DiTDecoderLayer.forward` after the conditioning vector `c`
has been computed (eval mode: dropouts are the identity). -/
def ditDecoderLayerForwardWithSig (F : DiTDecoderLayerFns α)
    (p : DiTDecoderLayerP α) (x : Cube α) (c : Mat α) : Cube α :=
  let x2 := shiftScaleModForward F.silu p.attnMod1 (cubeMapVec F.norm1 x) c
  let x2b := F.selfAttn x2 x2 x2
  let x3 := cubeAdd (zeroScaleModForward F.silu p.attnMod2 x2b c) x
  let x4 := shiftScaleModForward F.silu p.mlpMod1 (cubeMapVec F.norm2 x3) c
  let x5 := cubeMapVec
    (fun v => p.linear2.apply ((p.linear1.apply v).map F.activation)) x4
  let x6 := zeroScaleModForward F.silu p.mlpMod2 x5 c
  cubeAdd x3 x6

/-- `DiTDecoderLayer.forward(x, t, cond)` in eval mode:
`cond = torch.mean(cond, axis=0)`, `cond = cond + t`, then shift-scale
modulation → self-attention → zero-scale modulation → residual, and the same
pattern around the feed-forward block. -/
def ditDecoderLayerForward (F : DiTDecoderLayerFns α) (p : DiTDecoderLayerP α)
    (x : Cube α) (t : Mat α) (cond : Cube α) : Cube α :=
  let c := matAdd (cubeMean0 cond) t
  let x2 := shiftScaleModForward F.silu p.attnMod1 (cubeMapVec F.norm1 x) c
  let x2b := F.selfAttn x2 x2 x2
  let x3 := cubeAdd (zeroScaleModForward F.silu p.attnMod2 x2b c) x
  let x4 := shiftScaleModForward F.silu p.mlpMod1 (cubeMapVec F.norm2 x3) c
  let x5 := cubeMapVec
    (fun v => p.linear2.apply ((p.linear1.apply v).map F.activation)) x4
  let x6 := zeroScaleModForward F.silu p.mlpMod2 x5 c
  cubeAdd x3 x6

/-- `DiTDecoderLayer.reset_parameters`: `xavier_uniform_` re-draws every
parameter of dimension `> 1` (the re-drawn values are modelled by the
arbitrary values already stored in `p`), then calls `reset_parameters` on the
four modulation layers: the first modulations keep (re-drawn) weights with
zeroed biases, the second ("zero-init scale") modulations get zero weight and
zero bias. -/
def ditDecoderLayerReset (dim : ℕ) (p : DiTDecoderLayerP α) : DiTDecoderLayerP α :=
  ⟨p.linear1, p.linear2,
    shiftScaleModReset dim p.attnMod1.scale.weight p.attnMod1.shift.weight,
    zeroScaleModReset dim,
    shiftScaleModReset dim p.mlpMod1.scale.weight p.mlpMod1.shift.weight,
    zeroScaleModReset dim⟩

/-- `DiTDecoder.__init__`: build `n_encoder_layers` fresh layers (their
pre-reset parameter draws are the entries of `draws`) and call
`reset_parameters` on each. -/
def ditDecoderInit (dim : ℕ) (draws : List (DiTDecoderLayerP α)) :
    List (DiTDecoderLayerP α) :=
  draws.map (ditDecoderLayerReset dim)

/-- `DiTDecoder.forward(x, time_embed, encoder_out)`: fold the layers, every
layer receiving the same `t` and the same `encoder_out`. -/
def ditDecoderForward (F : DiTDecoderLayerFns α)
    (layers : List (DiTDecoderLayerP α)) (x : Cube α) (t : Mat α)
    (encoderOut : Cube α) : Cube α :=
  layers.foldl (fun x p => ditDecoderLayerForward F p x t encoderOut) x

/-- Parameters of `FinalLayer`: the output projection `linear` and the linear
layer inside `adaLN_modulation` (`norm_final` has `elementwise_affine=False`
and therefore no parameters; it is also never applied in `forward`). -/
structure FinalLayerP (α : Type) : Type where
  linear : LinearP α
  adaLNModulation : LinearP α

/-- The modulation signal computed at the top of `FinalLayer.forward` as the
head is actually invoked: the caller (`DiTNoiseNet.forward_dec`) passes
`enc_cache[-1]`, a `(B, D)` tensor, so `torch.mean(cond, axis=0)` averages
over the *batch* axis, and adding the `(B, D)` time embedding broadcasts the
result back over the batch. -/
def headSig (cond : Mat α) (t : Mat α) : Mat α :=
  broadcastAddVec (matMean0 cond) t

/-- The body of `FinalLayer.forward` after the conditioning vector `c` has
been computed: `shift, scale = adaLN_modulation(c).chunk(2, dim=1)`, then
`x * scale[None] + shift[None]`, the output projection, and
`transpose(0, 1)`. -/
def finalLayerForwardWithSig (silu : α → α) (p : FinalLayerP α)
    (x : Cube α) (c : Mat α) : Cube α :=
  let m := c.map (fun cb => p.adaLNModulation.apply (cb.map silu))
  let shift := m.map (fun r => r.take (r.length / 2))
  let scale := m.map (fun r => r.drop (r.length / 2))
  let x2 := x.map (fun xt => (xt.zip (scale.zip shift)).map
    (fun q => vecAdd (vecMul q.1 q.2.1) q.2.2))
  (cubeMapVec p.linear.apply x2).transpose

/-- `FinalLayer.forward(x, t, cond)` for a rank-2 `cond` (as the source
always calls it, with `cond = enc_cache[-1]` of shape `(B, D)`):
`cond = torch.mean(cond, axis=0)` (a batch-axis mean here), `cond = cond + t`
(broadcast), `shift, scale = adaLN_modulation(cond).chunk(2, dim=1)`,
`x = x * scale[None] + shift[None]`, `x = linear(x)`, `x.transpose(0, 1)`. -/
def finalLayerForward (silu : α → α) (p : FinalLayerP α)
    (x : Cube α) (t : Mat α) (cond : Mat α) : Cube α :=
  let c := broadcastAddVec (matMean0 cond) t
  let m := c.map (fun cb => p.adaLNModulation.apply (cb.map silu))
  let shift := m.map (fun r => r.take (r.length / 2))
  let scale := m.map (fun r => r.drop (r.length / 2))
  let x2 := x.map (fun xt => (xt.zip (scale.zip shift)).map
    (fun q => vecAdd (vecMul q.1 q.2.1) q.2.2))
  (cubeMapVec p.linear.apply x2).transpose

/-- The output-head call inside `DiTNoiseNet.forward_dec`:
`self.eps_out(dec_out, time_enc, enc_cache[-1])`. -/
def forwardDecHead (silu : α → α) (p : FinalLayerP α) (decOut : Cube α)
    (timeEnc : Mat α) (encCache : Cube α) : Cube α :=
  finalLayerForward silu p decOut timeEnc (encCache.getLastD [])

/-- `FinalLayer.reset_parameters`: `nn.init.zeros_` on every parameter. -/
def finalLayerReset (hiddenSize outSize : ℕ) : FinalLayerP α :=
  ⟨⟨zeroMat outSize hiddenSize, zeroVec outSize⟩,
    ⟨zeroMat (2 * hiddenSize) hiddenSize, zeroVec (2 * hiddenSize)⟩⟩

/-- `FinalLayer.__init__` as invoked by `DiTNoiseNet.__init__`
(`self.eps_out = FinalLayer(config.dim_model, action_dim)`): the two linear
layers receive PyTorch default (random) initialisation, modelled by the
arbitrary argument `defaultInit`, and no call to `reset_parameters` occurs
anywhere on the construction path, so the constructed parameters are exactly
the default draws. -/
def finalLayerInit (defaultInit : FinalLayerP α) : FinalLayerP α := defaultInit

/-- Parameters of `DiTEncoderLayer` (attention and norms enter as functions,
so only the feed-forward linears appear). -/
structure DiTEncoderLayerP (α : Type) : Type where
  linear1 : LinearP α
  linear2 : LinearP α

/-- Library-module behaviour used by `DiTEncoderLayer`. -/
structure DiTEncoderLayerFns (α : Type) : Type where
  selfAttn : Cube α → Cube α → Cube α → Cube α
  norm1 : Vec α → Vec α
  norm2 : Vec α → Vec α
  activation : α → α

/-- `with_pos_embed(tensor, pos)`. -/
def withPosEmbed (tensor : Cube α) (pos : Option (Cube α)) : Cube α :=
  match pos with
  | none => tensor
  | some p => cubeAdd tensor p

/-- The body of `DiTEncoderLayer.forward` with the attention inputs split
out: `qk` is used as query and key, `src` as value and residual stream. -/
def ditEncoderLayerBody (F : DiTEncoderLayerFns α) (p : DiTEncoderLayerP α)
    (qk src : Cube α) : Cube α :=
  let src2 := F.selfAttn qk qk src
  let srcA := cubeAdd src src2
  let srcB := cubeMapVec F.norm1 srcA
  let src3 := cubeMapVec
    (fun v => p.linear2.apply ((p.linear1.apply v).map F.activation)) srcB
  let srcC := cubeAdd srcB src3
  cubeMapVec F.norm2 srcC

/-- `DiTEncoderLayer.forward(src, pos_embed)` in eval mode:
`q = k = with_pos_embed(src, pos_embed)`, value and residual are `src`. -/
def ditEncoderLayerForward (F : DiTEncoderLayerFns α) (p : DiTEncoderLayerP α)
    (src : Cube α) (posEmbed : Option (Cube α)) : Cube α :=
  ditEncoderLayerBody F p (withPosEmbed src posEmbed) src

/-- `DiTEncoder.forward(x, pos_embed)`: fold the layers, every layer
receiving the same `pos_embed`. -/
def ditEncoderForward (F : DiTEncoderLayerFns α)
    (layers : List (DiTEncoderLayerP α)) (x : Cube α)
    (posEmbed : Option (Cube α)) : Cube α :=
  layers.foldl (fun x p => ditEncoderLayerForward F p x posEmbed) x

/-- Row `r` of the sinusoidal table built in `PositionalEncoding.__init__`:
entry `2i` is `sin(r · exp(-(2i) · ln 10000 / d_model))` and entry `2i+1` is
the `cos` of the same argument. -/
noncomputable def positionalEncodingRow (dModel r : ℕ) : Vec ℝ :=
  (List.range dModel).map (fun j =>
    let freq := Real.exp (-(((2 * (j / 2) : ℕ)) : ℝ) * (Real.log 10000 / (dModel : ℝ)))
    if j % 2 = 0 then Real.sin ((r : ℝ) * freq) else Real.cos ((r : ℝ) * freq))

/-- `PositionalEncoding.forward(x)` for `x : (T, B, D)`: the first `T` rows
of the table, repeated across the batch axis.  Note the module returns a
detached copy of the table only — it does not add `x`. -/
noncomputable def positionalEncodingForward (dModel T B : ℕ) : Cube ℝ :=
  (List.range T).map (fun r => List.replicate B (positionalEncodingRow dModel r))

/-- `DiTNoiseNet.forward_enc(global_cond)`: rearrange `(B, T, D)` to
`(T, B, D)`, compute the positional table for that shape with
`self.enc_pos`, and run the encoder stack on the raw tokens with the table
passed as `pos_embed` to every layer. -/
noncomputable def ditNoiseNetForwardEnc (dModel : ℕ) (F : DiTEncoderLayerFns ℝ)
    (layers : List (DiTEncoderLayerP ℝ)) (globalCond : Cube ℝ) : Cube ℝ :=
  let x := globalCond.transpose
  let pos := positionalEncodingForward dModel x.length (x.headD []).length
  ditEncoderForward F layers x (some pos)

/-- The encoder pipeline as the spec sentence for C5 describes it: the
positional encoding is added to the concatenated modality tokens exactly once
before the encoder layer stack runs, and no layer receives it again. -/
noncomputable def ditNoiseNetForwardEncClaim (dModel : ℕ) (F : DiTEncoderLayerFns ℝ)
    (layers : List (DiTEncoderLayerP ℝ)) (globalCond : Cube ℝ) : Cube ℝ :=
  let x := globalCond.transpose
  let pos := positionalEncodingForward dModel x.length (x.headD []).length
  ditEncoderForward F layers (cubeAdd x pos) none

/-! ### Shape lemmas for the freshly-reset decoder layer -/

theorem mem_zipWith {β γ δ : Type} {f : β → γ → δ} {l1 : List β} {l2 : List γ}
    {x : δ} (h : x ∈ List.zipWith f l1 l2) :
    ∃ a b, a ∈ l1 ∧ b ∈ l2 ∧ x = f a b := by
  induction l1 generalizing l2 with
  | nil => simp at h
  | cons a as ih =>
    cases l2 with
    | nil => simp at h
    | cons b bs =>
      simp only [List.zipWith_cons_cons, List.mem_cons] at h
      rcases h with h | h
      · exact ⟨a, b, by simp, by simp, h⟩
      · obtain ⟨a2, b2, ha, hb, hx⟩ := ih h
        exact ⟨a2, b2, by simp [ha], by simp [hb], hx⟩

theorem matAdd_WF {M N : Mat α} {b d : ℕ} (hM : MatWF M b d) (hN : MatWF N b d) :
    MatWF (matAdd M N) b d := by
  constructor
  · simp [matAdd, hM.1, hN.1]
  · intro r hr
    obtain ⟨u, v, hu, hv, rfl⟩ := mem_zipWith hr
    simp [vecAdd, hM.2 u hu, hN.2 v hv]

theorem foldl_matAdd_WF {l : List (Mat α)} {acc : Mat α} {b d : ℕ}
    (hacc : MatWF acc b d) (hl : ∀ M ∈ l, MatWF M b d) :
    MatWF (l.foldl matAdd acc) b d := by
  induction l generalizing acc with
  | nil => exact hacc
  | cons M Ms ih =>
    exact ih (matAdd_WF hacc (hl M (by simp))) (fun N hN => hl N (by simp [hN]))

theorem matScale_WF {M : Mat α} {b d : ℕ} (c : α) (hM : MatWF M b d) :
    MatWF (matScale c M) b d := by
  constructor
  · simp [matScale, hM.1]
  · intro r hr
    simp only [matScale, List.mem_map] at hr
    obtain ⟨r0, hr0, rfl⟩ := hr
    simp [vecScale, hM.2 r0 hr0]

theorem cubeMean0_WF {X : Cube α} {Tc b d : ℕ} (hX : CubeWF X Tc b d)
    (hTc : 0 < Tc) : MatWF (cubeMean0 X) b d := by
  cases X with
  | nil =>
    rw [← hX.1] at hTc
    simp at hTc
  | cons M Ms =>
    refine matScale_WF _ (foldl_matAdd_WF (hX.2 M (by simp)) ?_)
    intro N hN
    exact hX.2 N (by simp [hN])

theorem cubeMapVec_WF {X : Cube α} {f : Vec α → Vec α} {a b d1 d2 : ℕ}
    (hX : CubeWF X a b d1) (hf : ∀ v : Vec α, v.length = d1 → (f v).length = d2) :
    CubeWF (cubeMapVec f X) a b d2 := by
  constructor
  · simp [cubeMapVec, hX.1]
  · intro M hM
    simp only [cubeMapVec, List.mem_map] at hM
    obtain ⟨M0, hM0, rfl⟩ := hM
    have hM0WF := hX.2 M0 hM0
    constructor
    · simp [hM0WF.1]
    · intro r hr
      simp only [List.mem_map] at hr
      obtain ⟨r0, hr0, rfl⟩ := hr
      exact hf r0 (hM0WF.2 r0 hr0)

theorem condSig_WF {cond : Cube α} {t : Mat α} {Tc B dim : ℕ}
    (hcond : CubeWF cond Tc B dim) (hTc : 0 < Tc) (ht : MatWF t B dim) :
    MatWF (condSig cond t) B dim :=
  matAdd_WF (cubeMean0_WF hcond hTc) ht

theorem shiftScaleModForward_WF (silu : α → α) {p : ShiftScaleModP α}
    {x : Cube α} {c : Mat α} {T B dim : ℕ}
    (hx : CubeWF x T B dim) (hc : c.length = B)
    (hsw : p.scale.weight.length = dim) (hsb : p.scale.bias.length = dim)
    (hhw : p.shift.weight.length = dim) (hhb : p.shift.bias.length = dim) :
    CubeWF (shiftScaleModForward silu p x c) T B dim := by
  constructor
  · simp [shiftScaleModForward, hx.1]
  · intro M hM
    simp only [shiftScaleModForward, List.mem_map] at hM
    obtain ⟨xt, hxt, rfl⟩ := hM
    have hxtWF := hx.2 xt hxt
    constructor
    · simp [List.length_zip, hxtWF.1, hc]
    · intro r hr
      simp only [List.mem_map] at hr
      obtain ⟨q, hq, rfl⟩ := hr
      obtain ⟨q1, q2⟩ := q
      have hq1 := (List.of_mem_zip hq).1
      have hq2 := (List.of_mem_zip hq).2
      obtain ⟨q21, q22⟩ := q2
      have hq21 := (List.of_mem_zip hq2).1
      have hq22 := (List.of_mem_zip hq2).2
      simp only [List.mem_map] at hq21 hq22
      obtain ⟨c1, _, rfl⟩ := hq21
      obtain ⟨c2, _, rfl⟩ := hq22
      simp [vecAdd, vecMul, LinearP.apply_length, hsw, hsb, hhw, hhb,
        hxtWF.2 q1 hq1]

theorem zip_replicate_vecMul {M : Mat α} {B dim : ℕ} (h1 : M.length = B)
    (h2 : ∀ r ∈ M, r.length = dim) :
    (M.zip (List.replicate B (zeroVec dim : Vec α))).map
      (fun q => vecMul q.1 q.2) = zeroMat B dim := by
  induction M generalizing B with
  | nil => subst h1; rfl
  | cons r rs ih =>
    subst h1
    simp only [List.length_cons, List.replicate_succ, List.zip_cons_cons,
      List.map_cons, zeroMat, List.cons.injEq]
    constructor
    · exact vecMul_zero_right (h2 r (by simp))
    · have h3 := ih rfl (fun r hr => h2 r (by simp [hr]))
      simpa [zeroMat] using h3

theorem zeroScaleModForward_reset_zero (silu : α → α) {y : Cube α} {c : Mat α}
    {T B dim : ℕ} (hy : CubeWF y T B dim) (hc : c.length = B) :
    zeroScaleModForward silu (zeroScaleModReset dim) y c = zeroCube T B dim := by
  have hsc : (c.map (List.map silu)).map
      (LinearP.apply ⟨zeroMat dim dim, zeroVec dim⟩) =
      List.replicate B (zeroVec dim : Vec α) := by
    have h1 : ∀ v ∈ c.map (List.map silu),
        LinearP.apply ⟨zeroMat dim dim, zeroVec dim⟩ v = zeroVec dim :=
      fun v _ => LinearP.apply_zero v
    have h2 := map_eq_replicate_of_forall h1
    simpa [hc] using h2
  have hbody : ∀ yt ∈ y,
      (yt.zip ((c.map (List.map silu)).map
        (LinearP.apply ⟨zeroMat dim dim, zeroVec dim⟩))).map
          (fun q => vecMul q.1 q.2) = zeroMat B dim := by
    intro yt hyt
    rw [hsc]
    exact zip_replicate_vecMul (hy.2 yt hyt).1 (hy.2 yt hyt).2
  have h3 := map_eq_replicate_of_forall hbody
  simpa [zeroScaleModForward, zeroScaleModReset, zeroCube, hy.1] using h3

theorem ditDecoderLayer_identity_core (F : DiTDecoderLayerFns α)
    (p : DiTDecoderLayerP α) (x : Cube α) (c : Mat α) (T B dim : ℕ)
    (hx : CubeWF x T B dim) (hc : MatWF c B dim)
    (hattn : ∀ q k v : Cube α, CubeWF q T B dim → CubeWF (F.selfAttn q k v) T B dim)
    (hn1 : ∀ v : Vec α, (F.norm1 v).length = v.length)
    (hn2 : ∀ v : Vec α, (F.norm2 v).length = v.length)
    (ha2 : p.attnMod2 = zeroScaleModReset dim)
    (hm2 : p.mlpMod2 = zeroScaleModReset dim)
    (h1sw : p.attnMod1.scale.weight.length = dim)
    (h1sb : p.attnMod1.scale.bias.length = dim)
    (h1hw : p.attnMod1.shift.weight.length = dim)
    (h1hb : p.attnMod1.shift.bias.length = dim)
    (h3sw : p.mlpMod1.scale.weight.length = dim)
    (h3sb : p.mlpMod1.scale.bias.length = dim)
    (h3hw : p.mlpMod1.shift.weight.length = dim)
    (h3hb : p.mlpMod1.shift.bias.length = dim)
    (hl2w : p.linear2.weight.length = dim) (hl2b : p.linear2.bias.length = dim) :
    ditDecoderLayerForwardWithSig F p x c = x := by
  have hcB : c.length = B := hc.1
  have hx1 : CubeWF (cubeMapVec F.norm1 x) T B dim :=
    cubeMapVec_WF hx (fun v hv => by rw [hn1 v, hv])
  have hx2 : CubeWF (shiftScaleModForward F.silu p.attnMod1
      (cubeMapVec F.norm1 x) c) T B dim :=
    shiftScaleModForward_WF F.silu hx1 hcB h1sw h1sb h1hw h1hb
  have hatt : CubeWF (F.selfAttn
      (shiftScaleModForward F.silu p.attnMod1 (cubeMapVec F.norm1 x) c)
      (shiftScaleModForward F.silu p.attnMod1 (cubeMapVec F.norm1 x) c)
      (shiftScaleModForward F.silu p.attnMod1 (cubeMapVec F.norm1 x) c))
      T B dim := hattn _ _ _ hx2
  have hz1 := zeroScaleModForward_reset_zero F.silu hatt hcB
  have hx3 : CubeWF (cubeMapVec F.norm2 x) T B dim :=
    cubeMapVec_WF hx (fun v hv => by rw [hn2 v, hv])
  have hx4 : CubeWF (shiftScaleModForward F.silu p.mlpMod1
      (cubeMapVec F.norm2 x) c) T B dim :=
    shiftScaleModForward_WF F.silu hx3 hcB h3sw h3sb h3hw h3hb
  have hx5 : CubeWF (cubeMapVec
      (fun v => p.linear2.apply ((p.linear1.apply v).map F.activation))
      (shiftScaleModForward F.silu p.mlpMod1 (cubeMapVec F.norm2 x) c))
      T B dim :=
    cubeMapVec_WF hx4 (fun v _ => by simp [LinearP.apply_length, hl2w, hl2b])
  have hz2 := zeroScaleModForward_reset_zero F.silu hx5 hcB
  simp only [ditDecoderLayerForwardWithSig, ha2, hm2]
  rw [hz1, cubeAdd_zero_left hx, hz2, cubeAdd_zero_right hx]

/-- C6: immediately after construction of the decoder stack
(`DiTDecoder.__init__` calls `reset_parameters` on every freshly built
layer), the second ("zero-init scale") modulation of each sub-block of every
decoder layer (`attn_mod2` and `mlp_mod2`) has zero weight and zero bias;
that modulation returns zero for every input; and consequently each freshly
constructed decoder layer maps its input tokens to themselves (acts as the
identity) in eval mode, for all well-shaped inputs, time embeddings and
conditioning caches, every attention / norm behaviour and every random
parameter draw. -/
theorem decoder_layer_identity_after_reset (dim T B Tc : ℕ)
    (F : DiTDecoderLayerFns α) (p : DiTDecoderLayerP α)
    (draws : List (DiTDecoderLayerP α))
    (x : Cube α) (t : Mat α) (cond : Cube α)
    (hx : CubeWF x T B dim) (hcond : CubeWF cond Tc B dim) (hTc : 0 < Tc)
    (ht : MatWF t B dim)
    (hattn : ∀ q k v : Cube α, CubeWF q T B dim → CubeWF (F.selfAttn q k v) T B dim)
    (hn1 : ∀ v : Vec α, (F.norm1 v).length = v.length)
    (hn2 : ∀ v : Vec α, (F.norm2 v).length = v.length)
    (h1s : p.attnMod1.scale.weight.length = dim)
    (h1h : p.attnMod1.shift.weight.length = dim)
    (h3s : p.mlpMod1.scale.weight.length = dim)
    (h3h : p.mlpMod1.shift.weight.length = dim)
    (hl2w : p.linear2.weight.length = dim) (hl2b : p.linear2.bias.length = dim) :
    ((ditDecoderLayerReset dim p).attnMod2.scale.weight = zeroMat dim dim ∧
      (ditDecoderLayerReset dim p).attnMod2.scale.bias = zeroVec dim ∧
      (ditDecoderLayerReset dim p).mlpMod2.scale.weight = zeroMat dim dim ∧
      (ditDecoderLayerReset dim p).mlpMod2.scale.bias = zeroVec dim) ∧
    (∀ q ∈ ditDecoderInit dim draws,
      q.attnMod2 = zeroScaleModReset dim ∧ q.mlpMod2 = zeroScaleModReset dim) ∧
    (∀ (silu : α → α) (y : Cube α) (c : Mat α), CubeWF y T B dim → c.length = B →
      zeroScaleModForward silu (zeroScaleModReset dim) y c = zeroCube T B dim) ∧
    ditDecoderLayerForward F (ditDecoderLayerReset dim p) x t cond = x := by
  refine ⟨⟨rfl, rfl, rfl, rfl⟩, ?_, ?_, ?_⟩
  · intro q hq
    simp only [ditDecoderInit, List.mem_map] at hq
    obtain ⟨q0, _, rfl⟩ := hq
    exact ⟨rfl, rfl⟩
  · exact fun silu y c hy hc => zeroScaleModForward_reset_zero silu hy hc
  · exact ditDecoderLayer_identity_core F (ditDecoderLayerReset dim p) x
      (condSig cond t) T B dim hx (condSig_WF hcond hTc ht) hattn hn1 hn2
      rfl rfl h1s
      (by simp [ditDecoderLayerReset, shiftScaleModReset, zeroVec])
      h1h
      (by simp [ditDecoderLayerReset, shiftScaleModReset, zeroVec])
      h3s
      (by simp [ditDecoderLayerReset, shiftScaleModReset, zeroVec])
      h3h
      (by simp [ditDecoderLayerReset, shiftScaleModReset, zeroVec])
      hl2w hl2b

/-- Witness for C6 at a concrete freshly-reset layer over `ℚ`
(`dim = T = B = T_cond = 1`). -/
theorem decoder_layer_identity_after_reset_witness :
    CubeWF ([[[3]]] : Cube ℚ) 1 1 1 ∧
    ditDecoderLayerForward
      (⟨fun q _ _ => q, fun v => v, fun v => v, fun z => z, fun z => z⟩ :
        DiTDecoderLayerFns ℚ)
      (ditDecoderLayerReset 1
        ⟨⟨[[2]], [3]⟩, ⟨[[4]], [5]⟩, ⟨⟨[[6]], [7]⟩, ⟨[[8]], [9]⟩⟩,
          ⟨⟨[[10]], [11]⟩⟩, ⟨⟨[[12]], [13]⟩, ⟨[[14]], [15]⟩⟩, ⟨⟨[[16]], [17]⟩⟩⟩)
      [[[3]]] [[1]] [[[2]]] = [[[3]]] := by
  have h := decoder_layer_identity_after_reset 1 1 1 1
    (⟨fun q _ _ => q, fun v => v, fun v => v, fun z => z, fun z => z⟩ :
      DiTDecoderLayerFns ℚ)
    ⟨⟨[[2]], [3]⟩, ⟨[[4]], [5]⟩, ⟨⟨[[6]], [7]⟩, ⟨[[8]], [9]⟩⟩,
      ⟨⟨[[10]], [11]⟩⟩, ⟨⟨[[12]], [13]⟩, ⟨[[14]], [15]⟩⟩, ⟨⟨[[16]], [17]⟩⟩⟩
    [] [[[3]]] [[1]] [[[2]]]
    (by simp [CubeWF, MatWF]) (by simp [CubeWF, MatWF]) (by decide)
    (by simp [MatWF])
    (fun q k v hq => hq) (fun v => rfl) (fun v => rfl)
    rfl rfl rfl rfl rfl rfl
  exact ⟨by simp [CubeWF, MatWF], h.2.2.2⟩

/-- C4 counterexample: at a concrete input (`B = 1`, a 2-token conditioning
cache whose tokens differ, zero time embedding), the output head as actually
invoked (`eps_out(dec_out, time_enc, enc_cache[-1])`) produces a different
result from the claimed computation, in which its modulation signal would be
`condSig` of the cache — the token-axis mean plus the time embedding — as in
the decoder layers. -/
theorem head_modulation_signal_counterexample :
    forwardDecHead (fun z : ℚ => z) ⟨⟨[[1]], [0]⟩, ⟨[[1], [1]], [0, 0]⟩⟩
        [[[1]]] [[0]] [[[0]], [[1]]] ≠
      finalLayerForwardWithSig (fun z : ℚ => z) ⟨⟨[[1]], [0]⟩, ⟨[[1], [1]], [0, 0]⟩⟩
        [[[1]]] (condSig [[[0]], [[1]]] [[0]]) := by
  have htr : ∀ v : Vec ℚ, List.transpose [[v]] = [[v]] := fun v => rfl
  have hL : forwardDecHead (fun z : ℚ => z) ⟨⟨[[1]], [0]⟩, ⟨[[1], [1]], [0, 0]⟩⟩
      [[[1]]] [[0]] [[[0]], [[1]]] = [[[2]]] := by
    norm_num [forwardDecHead, finalLayerForward, broadcastAddVec, matMean0,
      LinearP.apply, dot, vecMul, vecAdd, vecScale, cubeMapVec, htr]
  have hR : finalLayerForwardWithSig (fun z : ℚ => z)
      ⟨⟨[[1]], [0]⟩, ⟨[[1], [1]], [0, 0]⟩⟩ [[[1]]]
      (condSig [[[0]], [[1]]] [[0]]) = [[[1]]] := by
    norm_num [finalLayerForwardWithSig, condSig, cubeMean0, matScale, matAdd,
      matMean0, LinearP.apply, dot, vecMul, vecAdd, vecScale, cubeMapVec, htr]
  rw [hL, hR]
  simp

/-- C4 (amended): every decoder layer computes its modulation signal
identically, as `condSig` — the token-axis mean of the conditioning cache
(one vector per batch element) plus the time embedding — recomputed
independently inside each layer of the stack (each fold step re-derives it
from the same full cache); the output head, however, receives only the last
token `enc_cache[-1]` of the cache and computes its signal as `headSig`: the
batch-axis mean of that token, broadcast, plus the time embedding. -/
theorem modulation_signal_decoder_vs_head :
    (∀ (F : DiTDecoderLayerFns α) (p : DiTDecoderLayerP α) (x : Cube α)
      (t : Mat α) (cond : Cube α),
      ditDecoderLayerForward F p x t cond =
        ditDecoderLayerForwardWithSig F p x (condSig cond t)) ∧
    (∀ (F : DiTDecoderLayerFns α) (layers : List (DiTDecoderLayerP α))
      (x : Cube α) (t : Mat α) (cond : Cube α),
      ditDecoderForward F layers x t cond =
        layers.foldl
          (fun y p => ditDecoderLayerForwardWithSig F p y (condSig cond t)) x) ∧
    (∀ (silu : α → α) (p : FinalLayerP α) (decOut : Cube α) (timeEnc : Mat α)
      (encCache : Cube α),
      forwardDecHead silu p decOut timeEnc encCache =
        finalLayerForwardWithSig silu p decOut
          (headSig (encCache.getLastD []) timeEnc)) :=
  ⟨fun _ _ _ _ _ => rfl, fun _ _ _ _ _ => rfl, fun _ _ _ _ _ => rfl⟩

/-- C3 (code bug): immediately after construction the output head's
parameters are not zero — `FinalLayer.__init__` leaves PyTorch's default
random initialisation in place (here the concrete generic draw with weight
entries `1`) and `reset_parameters` is never invoked on `eps_out`; had it
been invoked (the evident intent, as `reset_parameters` zeroes every
parameter), the head's parameters would all be zero and it would emit the
constant zero baseline for every input, as the last two conjuncts show. -/
theorem final_layer_construction_keeps_default_init :
    finalLayerInit (⟨⟨[[(1 : ℚ)]], [0]⟩, ⟨[[1], [1]], [0, 0]⟩⟩ : FinalLayerP ℚ) =
      ⟨⟨[[1]], [0]⟩, ⟨[[1], [1]], [0, 0]⟩⟩ ∧
    (finalLayerInit
      (⟨⟨[[(1 : ℚ)]], [0]⟩, ⟨[[1], [1]], [0, 0]⟩⟩ : FinalLayerP ℚ)).linear.weight ≠
      zeroMat 1 1 ∧
    (finalLayerReset 1 1 : FinalLayerP ℚ) =
      ⟨⟨[[0]], [0]⟩, ⟨[[0], [0]], [0, 0]⟩⟩ ∧
    finalLayerForward (fun z : ℚ => z) (finalLayerReset 1 1)
      [[[5]]] [[7]] [[3]] = [[[0]]] := by
  have htr : ∀ v : Vec ℚ, List.transpose [[v]] = [[v]] := fun v => rfl
  refine ⟨rfl, by decide, rfl, ?_⟩
  norm_num [finalLayerForward, finalLayerReset, zeroMat, zeroVec,
    broadcastAddVec, matMean0, LinearP.apply, dot, vecMul, vecAdd, vecScale,
    cubeMapVec, htr]

/-- C5 counterexample: with `d_model = 2`, one encoder layer and a concrete
one-token batch, `forward_enc` (which passes the raw tokens into the stack
and hands the sinusoidal table to the layer) computes a different result from
the claimed pipeline in which the table is added to the tokens exactly once
before the stack and no layer receives it again. -/
theorem positional_encoding_once_counterexample :
    ditNoiseNetForwardEnc 2
        (⟨fun q _ _ => q, fun v => v, fun v => v, fun z => z⟩ :
          DiTEncoderLayerFns ℝ)
        [⟨⟨[[0, 0]], [0]⟩, ⟨[[0], [0]], [0, 0]⟩⟩] [[[0, 0]]] ≠
      ditNoiseNetForwardEncClaim 2
        (⟨fun q _ _ => q, fun v => v, fun v => v, fun z => z⟩ :
          DiTEncoderLayerFns ℝ)
        [⟨⟨[[0, 0]], [0]⟩, ⟨[[0], [0]], [0, 0]⟩⟩] [[[0, 0]]] := by
  have htr : ∀ v : Vec ℝ, List.transpose [[v]] = [[v]] := fun v => rfl
  norm_num [ditNoiseNetForwardEnc, ditNoiseNetForwardEncClaim,
    ditEncoderForward, ditEncoderLayerForward, ditEncoderLayerBody,
    withPosEmbed, positionalEncodingForward, positionalEncodingRow,
    List.range_succ, cubeAdd, matAdd, vecAdd, cubeMapVec,
    LinearP.apply, dot, vecMul, vecScale, htr,
    Real.sin_zero, Real.cos_zero]

/-- C5 (amended): the fixed sinusoidal positional encoding is not added to
the concatenated modality tokens before the encoder stack runs; instead
`forward_enc` hands the raw (transposed) tokens to the stack together with
the table, and every encoder layer adds the table to its self-attention
queries and keys only (the attention value and the residual stream use the
raw tokens). -/
theorem positional_encoding_used_inside_each_layer :
    (∀ (F : DiTEncoderLayerFns α) (p : DiTEncoderLayerP α) (src pos : Cube α),
      ditEncoderLayerForward F p src (some pos) =
        ditEncoderLayerBody F p (cubeAdd src pos) src) ∧
    (∀ (dModel : ℕ) (F : DiTEncoderLayerFns ℝ)
      (layers : List (DiTEncoderLayerP ℝ)) (globalCond : Cube ℝ),
      ditNoiseNetForwardEnc dModel F layers globalCond =
        ditEncoderForward F layers globalCond.transpose
          (some (positionalEncodingForward dModel globalCond.transpose.length
            (globalCond.transpose.headD []).length))) :=
  ⟨fun _ _ _ _ => rfl, fun _ _ _ _ => rfl⟩

end DiTSpec
